import Mathlib

/-!
Verification development for the subprocess-mediated RPC layer of the
`src-tauri` backend (files `lsp.rs` and `commands.rs`): framed transport,
request/response correlation, worker lifecycle guards, timeout handling,
crash-restart monitoring, and the HTTP-server metrics tracker.

Rust strings are modelled as `List Char` (Rust strings are valid UTF-8, and
`String::len` is the UTF-8 byte length, modelled by `utf8Len`).  Machine
integers are modelled as `Nat`/`Int` with explicit wrap-around where it
matters (`wrapI32`, `% W64`).  `HashMap` instances are modelled as
association lists with unique keys (`insertKey` / `removeKey` / `eraseKey`).
-/

set_option maxHeartbeats 1000000

namespace Desktop

/-! ### Association-list model of `std::collections::HashMap` -/

/-- The keys of an association list (the key set of a `HashMap`). -/
def keysOf {κ σ : Type} (m : List (κ × σ)) : List κ := m.map Prod.fst

/-- `HashMap::insert`: bind `k` to `v`, replacing any previous binding. -/
def insertKey {κ σ : Type} [DecidableEq κ] (k : κ) (v : σ) : List (κ × σ) → List (κ × σ)
  | [] => [(k, v)]
  | (k', v') :: rest => if k' = k then (k, v) :: rest else (k', v') :: insertKey k v rest

/-- `HashMap::remove`: return the mapped value, if any, and delete the binding. -/
def removeKey {κ σ : Type} [DecidableEq κ] (k : κ) : List (κ × σ) → Option σ × List (κ × σ)
  | [] => (none, [])
  | (k', v) :: rest =>
    if k' = k then (some v, rest)
    else ((removeKey k rest).1, (k', v) :: (removeKey k rest).2)

/-! ### Lemmas about the `HashMap` model -/

theorem removeKey_fst_of_mem {κ σ : Type} [DecidableEq κ] {m : List (κ × σ)} {k : κ} {v : σ}
    (hnd : (keysOf m).Nodup) (hm : (k, v) ∈ m) : (removeKey k m).1 = some v := by
  induction m with
  | nil => cases hm
  | cons hd rest ih =>
    obtain ⟨k', v'⟩ := hd
    simp only [keysOf, List.map_cons, List.nodup_cons] at hnd
    simp only [removeKey]
    by_cases hk : k' = k
    · subst hk
      rw [if_pos rfl]
      rcases List.mem_cons.mp hm with heq | hmem
      · injection heq with h1 h2
        simp [h2]
      · exact absurd (List.mem_map.mpr ⟨(k', v), hmem, rfl⟩) hnd.1
    · rw [if_neg hk]
      rcases List.mem_cons.mp hm with heq | hmem
      · injection heq with h1 h2
        exact absurd h1.symm hk
      · simpa using ih hnd.2 hmem

theorem removeKey_fst_mem {κ σ : Type} [DecidableEq κ] {m : List (κ × σ)} {k : κ} {v : σ}
    (h : (removeKey k m).1 = some v) : (k, v) ∈ m := by
  induction m with
  | nil => simp [removeKey] at h
  | cons hd rest ih =>
    obtain ⟨k', v'⟩ := hd
    simp only [removeKey] at h
    by_cases hk : k' = k
    · rw [if_pos hk] at h
      simp only at h
      injection h with h1
      exact List.mem_cons.mpr (Or.inl (by rw [hk, h1]))
    · rw [if_neg hk] at h
      simp only at h
      exact List.mem_cons_of_mem _ (ih h)

theorem removeKey_snd_sublist {κ σ : Type} [DecidableEq κ] (k : κ) (m : List (κ × σ)) :
    List.Sublist (removeKey k m).2 m := by
  induction m with
  | nil => simp [removeKey]
  | cons hd rest ih =>
    obtain ⟨k', v'⟩ := hd
    simp only [removeKey]
    by_cases hk : k' = k
    · rw [if_pos hk]
      exact List.Sublist.cons _ (List.Sublist.refl _)
    · rw [if_neg hk]
      exact List.Sublist.cons₂ _ ih

theorem removeKey_mem_preserve {κ σ : Type} [DecidableEq κ] {m : List (κ × σ)} {k k' : κ} {v : σ}
    (hne : k' ≠ k) (hm : (k', v) ∈ m) : (k', v) ∈ (removeKey k m).2 := by
  induction m with
  | nil => cases hm
  | cons hd rest ih =>
    obtain ⟨k0, v0⟩ := hd
    simp only [removeKey]
    by_cases hk : k0 = k
    · rw [if_pos hk]
      rcases List.mem_cons.mp hm with heq | hmem
      · injection heq with h1 h2
        exact absurd (h1.trans hk) hne
      · exact hmem
    · rw [if_neg hk]
      rcases List.mem_cons.mp hm with heq | hmem
      · exact List.mem_cons.mpr (Or.inl heq)
      · exact List.mem_cons_of_mem _ (ih hmem)

/-! ### Generic reader-side dispatch (correlation by identifier) -/

/-- One dispatch step of a reader thread: if the message carries a correlation
key that is present in the pending map, remove that entry and deliver the
message to the registered waiter; otherwise leave the map unchanged. -/
def dispatchOne {κ μ σ : Type} [DecidableEq κ] (key? : μ → Option κ)
    (m : μ) (pending : List (κ × σ)) : List (κ × σ) × Option (σ × μ) :=
  match key? m with
  | none => (pending, none)
  | some k =>
    match removeKey k pending with
    | (some s, pending') => (pending', some (s, m))
    | (none, pending') => (pending', none)

/-- Fold `dispatchOne` over a stream of decoded messages, collecting the
(message, waiter) deliveries in order. -/
def processAll {κ μ σ : Type} [DecidableEq κ] (key? : μ → Option κ) :
    List μ → List (κ × σ) → List (κ × σ) × List (μ × σ)
  | [], p => (p, [])
  | m :: ms, p =>
    match dispatchOne key? m p with
    | (p', some (s, _)) =>
      ((processAll key? ms p').1, (m, s) :: (processAll key? ms p').2)
    | (p', none) => processAll key? ms p'

theorem dispatchOne_fst_sublist {κ μ σ : Type} [DecidableEq κ] (key? : μ → Option κ)
    (m : μ) (p : List (κ × σ)) : List.Sublist (dispatchOne key? m p).1 p := by
  unfold dispatchOne
  cases hk : key? m with
  | none => exact List.Sublist.refl p
  | some k =>
    dsimp only
    cases hr : removeKey k p with
    | mk fst snd =>
      have h2 : List.Sublist snd p := by
        have h := removeKey_snd_sublist k p
        rw [hr] at h
        exact h
      cases fst <;> exact h2

theorem dispatchOne_delivery {κ μ σ : Type} [DecidableEq κ] {key? : μ → Option κ} {m : μ}
    {p : List (κ × σ)} {s : σ} {m' : μ}
    (h : (dispatchOne key? m p).2 = some (s, m')) :
    m' = m ∧ ∃ k, key? m = some k ∧ (k, s) ∈ p := by
  unfold dispatchOne at h
  cases hk : key? m with
  | none => rw [hk] at h; simp at h
  | some k =>
    rw [hk] at h
    dsimp only at h
    cases hr : removeKey k p with
    | mk fst snd =>
      rw [hr] at h
      cases fst with
      | none => simp at h
      | some s0 =>
        simp only [Option.some.injEq, Prod.mk.injEq] at h
        obtain ⟨hs, hm'⟩ := h
        refine ⟨hm'.symm, k, rfl, ?_⟩
        have hfst : (removeKey k p).1 = some s := by rw [hr, hs]
        exact removeKey_fst_mem hfst

theorem dispatchOne_preserve {κ μ σ : Type} [DecidableEq κ] {key? : μ → Option κ} {m : μ}
    {p : List (κ × σ)} {k : κ} {v : σ}
    (hne : key? m ≠ some k) (hm : (k, v) ∈ p) : (k, v) ∈ (dispatchOne key? m p).1 := by
  unfold dispatchOne
  cases hk : key? m with
  | none => exact hm
  | some j =>
    dsimp only
    have hjk : k ≠ j := fun e => hne (by rw [hk, e])
    cases hr : removeKey j p with
    | mk fst snd =>
      have hpres : (k, v) ∈ snd := by
        have h := removeKey_mem_preserve hjk hm
        rw [hr] at h
        exact h
      cases fst <;> exact hpres

theorem processAll_sound {κ μ σ : Type} [DecidableEq κ] {key? : μ → Option κ}
    {msgs : List μ} {p : List (κ × σ)} {m : μ} {s : σ}
    (h : (m, s) ∈ (processAll key? msgs p).2) :
    ∃ k, key? m = some k ∧ (k, s) ∈ p := by
  induction msgs generalizing p with
  | nil => simp [processAll] at h
  | cons m0 ms ih =>
    unfold processAll at h
    cases hd : dispatchOne key? m0 p with
    | mk p' dres =>
      rw [hd] at h
      have hsub : List.Sublist p' p := by
        have hs := dispatchOne_fst_sublist key? m0 p
        rw [hd] at hs
        exact hs
      cases dres with
      | none =>
        obtain ⟨k, hk, hmem⟩ := ih h
        exact ⟨k, hk, hsub.subset hmem⟩
      | some pr =>
        obtain ⟨s0, mdel⟩ := pr
        rcases List.mem_cons.mp h with heq | hmem
        · injection heq with h1 h2
          subst h1
          subst h2
          have hdel : (dispatchOne key? m p).2 = some (s, mdel) := by rw [hd]
          obtain ⟨_, k, hk, hmemp⟩ := dispatchOne_delivery hdel
          exact ⟨k, hk, hmemp⟩
        · obtain ⟨k, hk, hmemp⟩ := ih hmem
          exact ⟨k, hk, hsub.subset hmemp⟩

theorem processAll_first {κ μ σ : Type} [DecidableEq κ] {key? : μ → Option κ}
    {before : List μ} {m : μ} {after : List μ} {p : List (κ × σ)} {k : κ} {s : σ}
    (hkey : key? m = some k)
    (hbefore : ∀ m' ∈ before, key? m' ≠ some k)
    (hmem : (k, s) ∈ p) (hnd : (keysOf p).Nodup) :
    (m, s) ∈ (processAll key? (before ++ m :: after) p).2 := by
  induction before generalizing p with
  | nil =>
    simp only [List.nil_append]
    unfold processAll dispatchOne
    rw [hkey]
    dsimp only
    cases hr : removeKey k p with
    | mk fst snd =>
      have hfst : fst = some s := by
        have h := removeKey_fst_of_mem hnd hmem
        rw [hr] at h
        exact h
      subst hfst
      exact List.mem_cons_self _ _
  | cons b bs ih =>
    simp only [List.cons_append]
    unfold processAll
    have hbkey : key? b ≠ some k := hbefore b (List.mem_cons_self _ _)
    have hpres0 : (k, s) ∈ (dispatchOne key? b p).1 := dispatchOne_preserve hbkey hmem
    have hnd0 : (keysOf (dispatchOne key? b p).1).Nodup :=
      List.Nodup.sublist (List.Sublist.map Prod.fst (dispatchOne_fst_sublist key? b p)) hnd
    have hrest := ih (fun m' hm' => hbefore m' (List.mem_cons_of_mem _ hm')) hpres0 hnd0
    cases hd : dispatchOne key? b p with
    | mk p' dres =>
      rw [hd] at hrest
      cases dres with
      | none => exact hrest
      | some pr =>
        obtain ⟨s0, mdel⟩ := pr
        exact List.mem_cons_of_mem _ hrest

/-! ### JSON values and `serde_json::to_string` -/

/-- A JSON value, modelling `serde_json::Value` as used by the transport. -/
inductive Json where
  | null
  | bool (b : Bool)
  | num (n : Int)
  | str (s : List Char)
  | arr (xs : List Json)
  | obj (fields : List (List Char × Json))

/-- Hex digit character for a nibble (`serde_json`'s `\u00XX` escapes). -/
def hexDigit (n : Nat) : Char :=
  if n < 10 then Char.ofNat (48 + n) else Char.ofNat (87 + n)

/-- Escape one character of a JSON string the way `serde_json` does: quote,
backslash and ASCII control characters are escaped, everything else (including
non-ASCII) is emitted verbatim. -/
def escapeChar (c : Char) : List Char :=
  if c = '"' then ['\\', '"']
  else if c = '\\' then ['\\', '\\']
  else if c = Char.ofNat 8 then ['\\', 'b']
  else if c = Char.ofNat 12 then ['\\', 'f']
  else if c = '\n' then ['\\', 'n']
  else if c = '\r' then ['\\', 'r']
  else if c = '\t' then ['\\', 't']
  else if c.toNat < 32 then
    ['\\', 'u', '0', '0', hexDigit (c.toNat / 16), hexDigit (c.toNat % 16)]
  else [c]

/-- Escape a whole JSON string body. -/
def escapeChars (s : List Char) : List Char := (s.map escapeChar).flatten

mutual

/-- Compact JSON serialization, modelling `serde_json::to_string`. -/
def Json.serialize : Json → List Char
  | .null => "null".data
  | .bool true => "true".data
  | .bool false => "false".data
  | .num n => (toString n).data
  | .str s => '"' :: (escapeChars s ++ ['"'])
  | .arr xs => '[' :: (Json.serializeList xs ++ [']'])
  | .obj fs => Char.ofNat 123 :: (Json.serializeFields fs ++ [Char.ofNat 125])

/-- Serialize array elements, comma-separated. -/
def Json.serializeList : List Json → List Char
  | [] => []
  | [x] => x.serialize
  | x :: y :: xs => x.serialize ++ ',' :: Json.serializeList (y :: xs)

/-- Serialize object fields, comma-separated, keys escaped. -/
def Json.serializeFields : List (List Char × Json) → List Char
  | [] => []
  | [(k, v)] => '"' :: (escapeChars k ++ '"' :: ':' :: v.serialize)
  | (k, v) :: f :: fs =>
    '"' :: (escapeChars k ++ '"' :: ':' :: v.serialize) ++ ',' :: Json.serializeFields (f :: fs)

end

/-! ### Content-Length framing (`encode_message` / `decode_message`, lsp.rs) -/

/-- The UTF-8 byte length of a character sequence: Rust's `String::len`. -/
def utf8Len (cs : List Char) : Nat := (cs.map Char.utf8Size).sum

/-- Decimal digit characters of `n`, most significant first, as produced by
Rust's `Display` formatting of an unsigned integer. -/
def natToChars (n : Nat) : List Char :=
  if n = 0 then ['0'] else (Nat.digits 10 n).reverse.map fun d => Char.ofNat (48 + d)

/-- The header literal `"Content-Length: "` shared by `encode_message` and
`decode_message` in lsp.rs. -/
def clHeader : List Char := "Content-Length: ".data

/-- `encode_message` (lsp.rs 69-73): serialize the message and prepend a
`Content-Length` header whose value is `body.len()`, the UTF-8 byte length of
the body.  Being a function, it is deterministic: one message, one frame. -/
def encode_message (msg : Json) : List Char :=
  let body := msg.serialize
  clHeader ++ natToChars (utf8Len body) ++ ['\r', '\n', '\r', '\n'] ++ body

/-- Read one line, up to and excluding a line feed, consuming it, mirroring
`BufRead::read_line`; a line at end-of-stream has no terminator, and `none`
models a read of zero bytes (stream exhausted). -/
def readLine : List Char → Option (List Char × List Char)
  | [] => none
  | c :: cs =>
    if c = '\n' then some ([], cs)
    else
      match readLine cs with
      | none => some (c :: cs, [])
      | some (l, r) => some (c :: l, r)

/-- Whitespace as recognised by `str::trim`. -/
def isWs (c : Char) : Bool := c = ' ' || c = '\t' || c = '\r' || c = '\n'

/-- Model of `str::trim`. -/
def trimChars (cs : List Char) : List Char :=
  ((cs.dropWhile isWs).reverse.dropWhile isWs).reverse

/-- Model of `str::strip_prefix`: drop `p` from the front of the subject. -/
def stripPre : List Char → List Char → Option (List Char)
  | [], cs => some cs
  | _ :: _, [] => none
  | p :: ps, c :: cs => if p = c then stripPre ps cs else none

/-- Value of a decimal digit character, `none` for a non-digit. -/
def digitVal (c : Char) : Option Nat :=
  if 48 ≤ c.toNat ∧ c.toNat ≤ 57 then some (c.toNat - 48) else none

/-- Accumulating decimal parse over characters; fails on any non-digit. -/
def parseDigitsAux (acc : Nat) : List Char → Option Nat
  | [] => some acc
  | c :: cs =>
    match digitVal c with
    | some d => parseDigitsAux (acc * 10 + d) cs
    | none => none

/-- Model of `str::parse::<usize>`: at least one character, all digits. -/
def parseUsize (cs : List Char) : Option Nat :=
  match cs with
  | [] => none
  | _ :: _ => parseDigitsAux 0 cs

/-- The header loop of `decode_message` (lsp.rs 77-93): read lines until a
blank one, remembering the value of the last `Content-Length: ` header; a
malformed length is fatal, a missing one is an error once the blank line is
reached.  `fuel` bounds the loop (each iteration consumes input). -/
def readHeaders : Nat → Option Nat → List Char → Option (Nat × List Char)
  | 0, _, _ => none
  | fuel + 1, acc, cs =>
    match readLine cs with
    | none => none
    | some (line, rest) =>
      let t := trimChars line
      if t.isEmpty then
        match acc with
        | some n => some (n, rest)
        | none => none
      else
        match stripPre clHeader t with
        | some numStr =>
          match parseUsize numStr with
          | some n => readHeaders fuel (some n) rest
          | none => none
        | none => readHeaders fuel acc rest

/-- Model of `read_exact` over a UTF-8 character stream: split off a prefix of
exactly `n` bytes; fails if the stream is shorter or `n` falls strictly inside
a character (which at byte level would truncate the UTF-8 sequence). -/
def takeBytes (n : Nat) (cs : List Char) : Option (List Char × List Char) :=
  if n = 0 then some ([], cs)
  else
    match cs with
    | [] => none
    | c :: cs' =>
      if c.utf8Size ≤ n then
        match takeBytes (n - c.utf8Size) cs' with
        | some (l, r) => some (c :: l, r)
        | none => none
      else none

/-- The framing part of `decode_message` (lsp.rs 76-101): parse the header
block, then read exactly `Content-Length` bytes of body.  (The final
`serde_json::from_slice` on the body is the caller's concern, not framing.) -/
def decodeFrame (cs : List Char) : Option (List Char × List Char) :=
  match readHeaders (cs.length + 1) none cs with
  | none => none
  | some (n, rest) => takeBytes n rest

/-! ### Lemmas: the Content-Length header round-trips through the header parser -/

theorem digitVal_ofNat (d : Nat) (hd : d < 10) :
    digitVal (Char.ofNat (48 + d)) = some d := by
  interval_cases d <;> decide

theorem parseDigitsAux_digits (ds : List Nat) (acc : Nat) (h : ∀ d ∈ ds, d < 10) :
    parseDigitsAux acc (ds.map fun d => Char.ofNat (48 + d)) =
      some (ds.foldl (fun a d => a * 10 + d) acc) := by
  induction ds generalizing acc with
  | nil => rfl
  | cons d ds ih =>
    have hd : d < 10 := h d (List.mem_cons_self d ds)
    simp only [List.map_cons, parseDigitsAux, digitVal_ofNat d hd, List.foldl_cons]
    exact ih _ fun x hx => h x (List.mem_cons_of_mem _ hx)

theorem foldl_base10_reverse (L : List Nat) (acc : Nat) :
    L.reverse.foldl (fun a d => a * 10 + d) acc = acc * 10 ^ L.length + Nat.ofDigits 10 L := by
  induction L generalizing acc with
  | nil => simp [Nat.ofDigits]
  | cons d L ih =>
    simp only [List.reverse_cons, List.foldl_append, List.foldl_cons, List.foldl_nil,
      Nat.ofDigits_cons, List.length_cons, ih]
    ring

theorem parseUsize_natToChars (n : Nat) : parseUsize (natToChars n) = some n := by
  by_cases h0 : n = 0
  · subst h0; decide
  · have hne : Nat.digits 10 n ≠ [] := Nat.digits_ne_nil_iff_ne_zero.mpr h0
    have hrevne : (Nat.digits 10 n).reverse ≠ [] := by simpa using hne
    have hlt : ∀ d ∈ (Nat.digits 10 n).reverse, d < 10 := fun d hd =>
      Nat.digits_lt_base (by norm_num) (List.mem_reverse.mp hd)
    have haux := parseDigitsAux_digits ((Nat.digits 10 n).reverse) 0 hlt
    have hfold := foldl_base10_reverse (Nat.digits 10 n) 0
    rw [Nat.ofDigits_digits, Nat.zero_mul, Nat.zero_add] at hfold
    rw [hfold] at haux
    unfold natToChars
    rw [if_neg h0]
    rcases hds : (Nat.digits 10 n).reverse with _ | ⟨d, ds⟩
    · exact absurd hds hrevne
    · rw [hds] at haux
      show parseDigitsAux 0 (List.map (fun d => Char.ofNat (48 + d)) (d :: ds)) = some n
      exact haux

theorem natToChars_digit {n : Nat} : ∀ c ∈ natToChars n, 48 ≤ c.toNat ∧ c.toNat ≤ 57 := by
  intro c hc
  unfold natToChars at hc
  by_cases h0 : n = 0
  · rw [if_pos h0] at hc
    simp at hc
    subst hc; decide
  · rw [if_neg h0] at hc
    obtain ⟨d, hd, hc'⟩ := List.mem_map.mp hc
    have hlt : d < 10 := Nat.digits_lt_base (by norm_num) (List.mem_reverse.mp hd)
    rw [← hc']
    interval_cases d <;> decide

theorem natToChars_ne_nil (n : Nat) : natToChars n ≠ [] := by
  unfold natToChars
  by_cases h0 : n = 0
  · simp [h0]
  · rw [if_neg h0]
    intro h
    exact (Nat.digits_ne_nil_iff_ne_zero.mpr h0) (by simpa using h)

theorem digit_not_ws {c : Char} (h1 : 48 ≤ c.toNat) : isWs c = false := by
  unfold isWs
  have hs : c ≠ ' ' := by intro e; subst e; exact absurd h1 (by decide)
  have ht : c ≠ '\t' := by intro e; subst e; exact absurd h1 (by decide)
  have hr : c ≠ '\r' := by intro e; subst e; exact absurd h1 (by decide)
  have hn : c ≠ '\n' := by intro e; subst e; exact absurd h1 (by decide)
  simp [hs, ht, hr, hn]

theorem readLine_append (xs r : List Char) (h : '\n' ∉ xs) :
    readLine (xs ++ '\n' :: r) = some (xs, r) := by
  induction xs with
  | nil => simp [readLine]
  | cons c cs ih =>
    have hc : ¬(c = '\n') := fun e => h (by rw [e]; exact List.mem_cons_self _ _)
    have hcs : '\n' ∉ cs := fun hm => h (List.mem_cons_of_mem c hm)
    simp only [List.cons_append, readLine, List.append_eq]
    rw [if_neg hc, ih hcs]

theorem stripPre_append (p cs : List Char) : stripPre p (p ++ cs) = some cs := by
  induction p with
  | nil => rfl
  | cons c p ih => simp [stripPre, ih]

theorem trim_between (P D : List Char) (c0 : Char) (P' : List Char)
    (hP : P = c0 :: P') (hc0 : isWs c0 = false)
    (c1 : Char) (t : List Char) (hDr : D.reverse = c1 :: t) (hc1 : isWs c1 = false) :
    trimChars (P ++ D ++ ['\r']) = P ++ D := by
  have hD : D = t.reverse ++ [c1] := by
    rw [← List.reverse_reverse D, hDr, List.reverse_cons]
  unfold trimChars
  have h1 : (P ++ D ++ ['\r']).dropWhile isWs = P ++ D ++ ['\r'] := by
    rw [hP]
    simp [List.cons_append, List.dropWhile_cons, hc0]
  rw [h1]
  have h2 : (P ++ D ++ ['\r']).reverse = '\r' :: c1 :: (t ++ P.reverse) := by
    rw [List.reverse_append, List.reverse_append, hDr]
    simp
  rw [h2]
  simp only [List.dropWhile_cons]
  rw [if_pos (by decide : isWs '\r' = true), if_neg (by simp [hc1])]
  rw [List.reverse_cons, List.reverse_append, List.reverse_reverse, hD]
  simp [List.append_assoc]

theorem trim_header_line (k : Nat) :
    trimChars (clHeader ++ natToChars k ++ ['\r']) = clHeader ++ natToChars k := by
  obtain ⟨c, t, hct⟩ : ∃ c t, (natToChars k).reverse = c :: t := by
    rcases hr : (natToChars k).reverse with _ | ⟨c, t⟩
    · exact absurd (by simpa using hr) (natToChars_ne_nil k)
    · exact ⟨c, t, rfl⟩
  have hcmem : c ∈ natToChars k :=
    List.mem_reverse.mp (by rw [hct]; exact List.mem_cons_self c t)
  have hc48 : 48 ≤ c.toNat := (natToChars_digit c hcmem).1
  exact trim_between clHeader (natToChars k) 'C' "ontent-Length: ".data rfl (by decide)
    c t hct (digit_not_ws hc48)

theorem readLine_crlf (tail : List Char) :
    readLine ('\r' :: '\n' :: tail) = some (['\r'], tail) := by
  simp [readLine]

theorem clHeader_ne_nil_append (D : List Char) : (clHeader ++ D).isEmpty = false := by
  rw [show clHeader = 'C' :: "ontent-Length: ".data from rfl]
  rfl

theorem readHeaders_encoded (f k : Nat) (tail : List Char) :
    readHeaders (f + 2) none
        ((clHeader ++ natToChars k ++ ['\r']) ++ '\n' :: '\r' :: '\n' :: tail)
      = some (k, tail) := by
  have hnoLF : '\n' ∉ clHeader ++ natToChars k ++ ['\r'] := by
    intro hm
    rcases List.mem_append.mp hm with hm | hm
    · rcases List.mem_append.mp hm with hm | hm
      · exact absurd hm (by decide)
      · exact absurd (natToChars_digit _ hm).1 (by decide)
    · exact absurd hm (by decide)
  show readHeaders (f + 1 + 1) none _ = _
  rw [readHeaders, readLine_append _ _ hnoLF]
  simp only [trim_header_line, clHeader_ne_nil_append, stripPre_append,
    parseUsize_natToChars, Bool.false_eq_true, if_false]
  show readHeaders (f + 1) (some k) ('\r' :: '\n' :: tail) = some (k, tail)
  rw [readHeaders, readLine_crlf]
  simp [trimChars, isWs]

theorem takeBytes_zero (cs : List Char) : takeBytes 0 cs = some ([], cs) := by
  unfold takeBytes
  simp

theorem takeBytes_append (body rest : List Char) :
    takeBytes (utf8Len body) (body ++ rest) = some (body, rest) := by
  induction body with
  | nil => simp [takeBytes_zero, utf8Len]
  | cons c cs ih =>
    have hpos : 0 < c.utf8Size := Char.utf8Size_pos c
    have hlen : utf8Len (c :: cs) = c.utf8Size + utf8Len cs := by simp [utf8Len]
    rw [hlen]
    simp only [List.cons_append, takeBytes, List.append_eq]
    rw [if_neg (by omega : ¬(c.utf8Size + utf8Len cs = 0))]
    rw [if_pos (by omega : c.utf8Size ≤ c.utf8Size + utf8Len cs)]
    rw [show c.utf8Size + utf8Len cs - c.utf8Size = utf8Len cs from by omega]
    rw [ih]

theorem decodeFrame_block (k : Nat) (z : List Char) :
    decodeFrame ((clHeader ++ natToChars k ++ ['\r']) ++ '\n' :: '\r' :: '\n' :: z)
      = takeBytes k z := by
  unfold decodeFrame
  have h1 : 1 ≤ ((clHeader ++ natToChars k ++ ['\r'])
      ++ '\n' :: '\r' :: '\n' :: z).length := by
    simp [List.length_append]
    omega
  obtain ⟨f, hf⟩ : ∃ f, ((clHeader ++ natToChars k ++ ['\r'])
      ++ '\n' :: '\r' :: '\n' :: z).length + 1 = f + 2 :=
    ⟨((clHeader ++ natToChars k ++ ['\r'])
      ++ '\n' :: '\r' :: '\n' :: z).length - 1, by omega⟩
  rw [hf, readHeaders_encoded]

/-- Claim C8: `encode_message` is deterministic (it is a function of the
message alone), and the Content-Length value it writes is exactly the UTF-8
byte length of the serialized body: decoding the frame with the source's own
header parser and an exact byte-count read recovers precisely the body, for
every JSON message, with any trailing stream content untouched.  The second
conjunct shows on a non-ASCII payload that the byte length differs from the
character count, so the distinction in the claim is real. -/
theorem encode_message_content_length_exact :
    (∀ (msg : Json) (rest : List Char),
        decodeFrame (encode_message msg ++ rest) = some (msg.serialize, rest)) ∧
    utf8Len (Json.str ['é']).serialize ≠ (Json.str ['é']).serialize.length := by
  constructor
  · intro msg rest
    have hgroup : encode_message msg ++ rest
        = (clHeader ++ natToChars (utf8Len msg.serialize) ++ ['\r'])
            ++ '\n' :: '\r' :: '\n' :: (msg.serialize ++ rest) := by
      simp only [encode_message]
      simp [List.append_assoc]
    rw [hgroup, decodeFrame_block, takeBytes_append]
  · decide

/-! ### JSON-RPC message handling (`handle_lsp_message`, lsp.rs) -/

/-- `serde_json::Value::as_str`. -/
def Json.asStr : Json → Option (List Char)
  | .str s => some s
  | _ => none

/-- `serde_json::Value::as_i64`: the value of an integer that fits `i64`. -/
def Json.asI64 : Json → Option Int
  | .num n => if -(2 ^ 63) ≤ n ∧ n < 2 ^ 63 then some n else none
  | _ => none

/-- Two's-complement truncation of an `i64` value to `i32` (Rust's `as i32`). -/
def wrapI32 (n : Int) : Int := (n + 2 ^ 31) % 2 ^ 32 - 2 ^ 31

/-- `Value::get` of an object field (`msg.get("message")`). -/
def Json.getField (key : List Char) : Json → Option Json
  | .obj fs => fs.lookup key
  | _ => none

/-- The four fields of a decoded JSON-RPC message that `handle_lsp_message`
inspects (`msg.get("method" | "id" | "error" | "result")`). -/
structure LspMsg where
  method : Option Json
  id : Option Json
  error : Option Json
  result : Option Json

/-- The error text taken from a reply's `error` member: `error.message` as a
string, defaulting to "Unknown error" (lsp.rs 440-445). -/
def errorMessage (e : Json) : List Char :=
  match (Json.getField ("message".data) e).bind Json.asStr with
  | some s => s
  | none => "Unknown error".data

/-- The result `handle_lsp_message` sends to the matched waiter: the reply's
error message if `error` is present, else its `result`, else JSON null
(lsp.rs 440-450). -/
def replyPayload (msg : LspMsg) : Except (List Char) Json :=
  match msg.error with
  | some e => .error (errorMessage e)
  | none =>
    match msg.result with
    | some r => .ok r
    | none => .ok .null

/-- The identifier under which `handle_lsp_message` looks up a waiter: a
message with a string `method` is a notification or server request, never
dispatched to a waiter; otherwise its `id`, read `as_i64`, truncated `as i32`. -/
def lspReplyKey (msg : LspMsg) : Option Int :=
  match msg.method.bind Json.asStr with
  | some _ => none
  | none =>
    match msg.id with
    | none => none
    | some idv => (idv.asI64).map wrapI32

/-- `handle_lsp_message` (lsp.rs 399-455), as its effect on the pending map
and the delivery to the matched waiter (notification routing to the event
sink does not touch the map). -/
def handle_lsp_message {σ : Type} (msg : LspMsg) (pending : List (Int × σ)) :
    List (Int × σ) × Option (σ × Except (List Char) Json) :=
  match msg.method.bind Json.asStr with
  | some _ => (pending, none)
  | none =>
    match msg.id with
    | none => (pending, none)
    | some idv =>
      match idv.asI64 with
      | none => (pending, none)
      | some idNum =>
        match removeKey (wrapI32 idNum) pending with
        | (some sender, pending') => (pending', some (sender, replyPayload msg))
        | (none, pending') => (pending', none)

/-- The stdout reader loop of the LSP worker (lsp.rs 197-225): decoded
messages are handed to `handle_lsp_message` one at a time; deliveries to
waiters are collected in arrival order. -/
def processMessages {σ : Type} :
    List LspMsg → List (Int × σ) →
      List (Int × σ) × List (LspMsg × σ × Except (List Char) Json)
  | [], p => (p, [])
  | m :: ms, p =>
    match handle_lsp_message m p with
    | (p', some (s, r)) =>
      ((processMessages ms p').1, (m, s, r) :: (processMessages ms p').2)
    | (p', none) => processMessages ms p'

theorem handle_eq_dispatch {σ : Type} (msg : LspMsg) (p : List (Int × σ)) :
    handle_lsp_message msg p
      = ((dispatchOne lspReplyKey msg p).1,
         (dispatchOne lspReplyKey msg p).2.map fun d => (d.1, replyPayload msg)) := by
  unfold handle_lsp_message dispatchOne lspReplyKey
  cases hm : msg.method.bind Json.asStr with
  | some s => rfl
  | none =>
    dsimp only
    cases hid : msg.id with
    | none => rfl
    | some idv =>
      dsimp only
      cases hi : idv.asI64 with
      | none => rfl
      | some n =>
        dsimp only [Option.map_some']
        cases hr : removeKey (wrapI32 n) p with
        | mk fst snd => cases fst <;> rfl

theorem processMessages_eq_processAll {σ : Type} (msgs : List LspMsg) (p : List (Int × σ)) :
    processMessages msgs p
      = ((processAll lspReplyKey msgs p).1,
         (processAll lspReplyKey msgs p).2.map fun d => (d.1, d.2, replyPayload d.1)) := by
  induction msgs generalizing p with
  | nil => rfl
  | cons m ms ih =>
    unfold processMessages processAll
    rw [handle_eq_dispatch]
    cases hd : dispatchOne lspReplyKey m p with
    | mk p' dres =>
      cases dres with
      | none => exact ih p'
      | some pr =>
        obtain ⟨s, mdel⟩ := pr
        dsimp only [Option.map_some']
        rw [ih p']
        simp [List.map_cons]

/-! ### Inference-server response dispatch (commands.rs) -/

/-- `InferenceResponse` (commands.rs 71-82).  Numeric payload fields are
carried opaquely as JSON values; nothing is computed on them here. -/
structure InferenceResponse where
  request_id : List Char
  status : List Char
  response_type : Option (List Char)
  model_info : Option Json
  prediction : Option (List Json)
  probabilities : Option Json
  classes : Option (List Json)
  message : Option (List Char)

/-- Where the inference stdout reader routes one parsed response
(commands.rs 844-853): to the waiter registered under its `request_id`, or to
the startup/main channel when no waiter matches. -/
inductive InferenceRoute (τ : Type) where
  | toWaiter (s : τ)
  | toMainChannel

/-- The dispatch step of the inference stdout reader (commands.rs 844-853):
remove the pending entry for `resp.request_id` and send the response to that
waiter; when absent, forward the response to the startup/main channel. -/
def inference_dispatch {τ : Type} (resp : InferenceResponse)
    (pending : List (List Char × τ)) :
    List (List Char × τ) × InferenceRoute τ :=
  match removeKey resp.request_id pending with
  | (some sender, pending') => (pending', .toWaiter sender)
  | (none, pending') => (pending', .toMainChannel)

/-- The inference reader loop over a stream of parsed responses, collecting
each response's route in order. -/
def processResponses {τ : Type} :
    List InferenceResponse → List (List Char × τ) →
      List (List Char × τ) × List (InferenceResponse × InferenceRoute τ)
  | [], p => (p, [])
  | r :: rs, p =>
    ((processResponses rs (inference_dispatch r p).1).1,
      (r, (inference_dispatch r p).2) :: (processResponses rs (inference_dispatch r p).1).2)

/-- The correlation key of the inference protocol: every response carries its
caller-supplied `request_id`. -/
def infKey (resp : InferenceResponse) : Option (List Char) := some resp.request_id

/-- The deliveries that actually reached a registered waiter. -/
def waiterDeliveries {τ : Type} (ds : List (InferenceResponse × InferenceRoute τ)) :
    List (InferenceResponse × τ) :=
  ds.filterMap fun d =>
    match d.2 with
    | .toWaiter s => some (d.1, s)
    | .toMainChannel => none

theorem processResponses_eq_processAll {τ : Type} (rs : List InferenceResponse)
    (p : List (List Char × τ)) :
    (processResponses rs p).1 = (processAll infKey rs p).1 ∧
    waiterDeliveries (processResponses rs p).2 = (processAll infKey rs p).2 := by
  induction rs generalizing p with
  | nil => exact ⟨rfl, rfl⟩
  | cons r rs ih =>
    unfold processResponses processAll inference_dispatch dispatchOne infKey
    dsimp only
    cases hr : removeKey r.request_id p with
    | mk fst snd =>
      cases fst with
      | none =>
        dsimp only
        refine ⟨(ih snd).1, ?_⟩
        simp only [waiterDeliveries, List.filterMap_cons]
        exact (ih snd).2
      | some s =>
        dsimp only
        refine ⟨(ih snd).1, ?_⟩
        simp only [waiterDeliveries, List.filterMap_cons]
        exact congrArg (List.cons (r, s)) (ih snd).2

/-- Claim C1: request/reply correlation.  For the LSP reader
(`handle_lsp_message`): any delivery to a waiter carries exactly the payload
of a reply whose (i32-truncated) JSON-RPC id is the key that waiter was
registered under, and — for distinct registered ids — the first arriving
reply bearing a caller's id is delivered to exactly that caller, whatever the
arrival order.  The same two properties hold of the inference stdout reader's
string `request_id` dispatch. -/
theorem correlation_dispatch_by_id :
    (∀ (σ : Type) (pending : List (Int × σ)) (msgs : List LspMsg) (m : LspMsg) (s : σ)
        (r : Except (List Char) Json),
        (m, s, r) ∈ (processMessages msgs pending).2 →
        r = replyPayload m ∧ ∃ i, lspReplyKey m = some i ∧ (i, s) ∈ pending) ∧
    (∀ (σ : Type) (pending : List (Int × σ)) (before : List LspMsg) (m : LspMsg)
        (after : List LspMsg) (i : Int) (s : σ),
        lspReplyKey m = some i →
        (∀ m' ∈ before, lspReplyKey m' ≠ some i) →
        (i, s) ∈ pending → (keysOf pending).Nodup →
        (m, s, replyPayload m) ∈ (processMessages (before ++ m :: after) pending).2) ∧
    (∀ (τ : Type) (pending : List (List Char × τ)) (rs : List InferenceResponse)
        (resp : InferenceResponse) (s : τ),
        (resp, s) ∈ waiterDeliveries (processResponses rs pending).2 →
        (resp.request_id, s) ∈ pending) ∧
    (∀ (τ : Type) (pending : List (List Char × τ)) (before : List InferenceResponse)
        (resp : InferenceResponse) (after : List InferenceResponse) (s : τ),
        (∀ r' ∈ before, r'.request_id ≠ resp.request_id) →
        (resp.request_id, s) ∈ pending → (keysOf pending).Nodup →
        (resp, s) ∈ waiterDeliveries (processResponses (before ++ resp :: after) pending).2) := by
  refine ⟨?_, ?_, ?_, ?_⟩
  · intro σ pending msgs m s r h
    rw [processMessages_eq_processAll] at h
    obtain ⟨⟨m0, s0⟩, hmem, heq⟩ := List.mem_map.mp h
    injection heq with h1 hrest
    injection hrest with h2 h3
    subst h1
    subst h2
    obtain ⟨i, hi, hip⟩ := processAll_sound hmem
    exact ⟨h3.symm, i, hi, hip⟩
  · intro σ pending before m after i s hkey hbefore hmem hnd
    rw [processMessages_eq_processAll]
    exact List.mem_map.mpr ⟨(m, s), processAll_first hkey hbefore hmem hnd, rfl⟩
  · intro τ pending rs resp s h
    rw [(processResponses_eq_processAll rs pending).2] at h
    obtain ⟨k, hk, hkp⟩ := processAll_sound h
    have : k = resp.request_id := by
      have := hk.symm.trans (rfl : infKey resp = some resp.request_id)
      exact (Option.some.injEq _ _ ▸ this :)
    rw [← this]
    exact hkp
  · intro τ pending before resp after s hbefore hmem hnd
    rw [(processResponses_eq_processAll (before ++ resp :: after) pending).2]
    refine processAll_first rfl ?_ hmem hnd
    intro r' hr' he
    exact hbefore r' hr' (Option.some.inj he)

/-! ### Worker start guards: at most one live worker per kind (C2) -/

/-- Outcome of the part of a start call that runs after the already-running
guard: either the spawn + readiness handshake succeeds and yields handle `h`,
which the command stores, or it fails with an error, and every failure path
(spawn error, readiness timeout, initialize failure) leaves the slot empty. -/
structure StartEnv (α : Type) where
  spawned : Option α
  errMsg : List Char

/-- The continuation shared by all three start commands after their guard. -/
def startRest {α : Type} (env : StartEnv α) : Except (List Char) Unit × Option α :=
  match env.spawned with
  | some h => (.ok (), some h)
  | none => (.error env.errMsg, none)

/-- `start_lsp` (lsp.rs 139-145): fail fast with "LSP server already running"
when the slot is occupied, leaving the stored handle untouched. -/
def start_lsp_model {α : Type} (st : Option α) (env : StartEnv α) :
    Except (List Char) Unit × Option α :=
  match st with
  | some h => (.error ("LSP server already running".data), some h)
  | none => startRest env

/-- `start_inference_server` (commands.rs 784-790): the same guard with its
own error text. -/
def start_inference_server_model {α : Type} (st : Option α) (env : StartEnv α) :
    Except (List Char) Unit × Option α :=
  match st with
  | some h => (.error ("Inference server already running. Stop it first.".data), some h)
  | none => startRest env

/-- `start_http_server` (commands.rs 1381-1387): the same guard with its own
error text. -/
def start_http_server_model {α : Type} (st : Option α) (env : StartEnv α) :
    Except (List Char) Unit × Option α :=
  match st with
  | some h => (.error ("HTTP server already running. Stop it first.".data), some h)
  | none => startRest env

/-- Run a sequence of start calls against one worker slot, collecting each
call's result and the final slot contents. -/
def runStarts {α : Type}
    (start : Option α → StartEnv α → Except (List Char) Unit × Option α) :
    Option α → List (StartEnv α) → List (Except (List Char) Unit) × Option α
  | st, [] => ([], st)
  | st, e :: es =>
    ((start st e).1 :: (runStarts start (start st e).2 es).1,
      (runStarts start (start st e).2 es).2)

theorem runStarts_occupied {α : Type} (msg : List Char)
    (start : Option α → StartEnv α → Except (List Char) Unit × Option α)
    (hstart : ∀ (h : α) (env : StartEnv α), start (some h) env = (.error msg, some h))
    (h : α) (envs : List (StartEnv α)) :
    runStarts start (some h) envs = (envs.map fun _ => Except.error msg, some h) := by
  induction envs with
  | nil => rfl
  | cons e es ih => simp [runStarts, hstart, ih]

/-- Claim C2: for each worker kind (language server, inference server, HTTP
server), once a start has succeeded and stored a handle, every later start
call without an intervening stop returns that kind's already-running error
and leaves the stored handle unchanged; starting from the empty slot, the
first successful call stores its handle and all later calls fail. -/
theorem at_most_one_worker_per_kind :
    (∀ (α : Type) (h : α) (envs : List (StartEnv α)),
        runStarts start_lsp_model (some h) envs
          = (envs.map fun _ => Except.error ("LSP server already running".data), some h)) ∧
    (∀ (α : Type) (h : α) (envs : List (StartEnv α)),
        runStarts start_inference_server_model (some h) envs
          = (envs.map fun _ =>
              Except.error ("Inference server already running. Stop it first.".data), some h)) ∧
    (∀ (α : Type) (h : α) (envs : List (StartEnv α)),
        runStarts start_http_server_model (some h) envs
          = (envs.map fun _ =>
              Except.error ("HTTP server already running. Stop it first.".data), some h)) ∧
    (∀ (α : Type) (h : α) (msg : List Char) (envs : List (StartEnv α)),
        runStarts start_lsp_model none (StartEnv.mk (some h) msg :: envs)
          = (Except.ok () :: envs.map fun _ =>
              Except.error ("LSP server already running".data), some h)) ∧
    (∀ (α : Type) (h : α) (msg : List Char) (envs : List (StartEnv α)),
        runStarts start_inference_server_model none (StartEnv.mk (some h) msg :: envs)
          = (Except.ok () :: envs.map fun _ =>
              Except.error ("Inference server already running. Stop it first.".data), some h)) ∧
    (∀ (α : Type) (h : α) (msg : List Char) (envs : List (StartEnv α)),
        runStarts start_http_server_model none (StartEnv.mk (some h) msg :: envs)
          = (Except.ok () :: envs.map fun _ =>
              Except.error ("HTTP server already running. Stop it first.".data), some h)) := by
  refine ⟨?_, ?_, ?_, ?_, ?_, ?_⟩
  · intro α h envs
    exact runStarts_occupied _ start_lsp_model (fun h env => rfl) h envs
  · intro α h envs
    exact runStarts_occupied _ start_inference_server_model (fun h env => rfl) h envs
  · intro α h envs
    exact runStarts_occupied _ start_http_server_model (fun h env => rfl) h envs
  · intro α h msg envs
    simp [runStarts, start_lsp_model, startRest,
      runStarts_occupied ("LSP server already running".data)
        start_lsp_model (fun h env => rfl) h envs]
  · intro α h msg envs
    simp [runStarts, start_inference_server_model, startRest,
      runStarts_occupied ("Inference server already running. Stop it first.".data)
        start_inference_server_model (fun h env => rfl) h envs]
  · intro α h msg envs
    simp [runStarts, start_http_server_model, startRest,
      runStarts_occupied ("HTTP server already running. Stop it first.".data)
        start_http_server_model (fun h env => rfl) h envs]

/-! ### Timeout path: the pending entry is removed after a timeout (C4) -/

/-- Correlator state of the LSP client: pending map plus `next_request_id`
(an `AtomicI32`, hence the `i32` wrap-around on increment). -/
structure CorrState (σ : Type) where
  pending : List (Int × σ)
  nextId : Int

/-- The effect on the correlator of one `send_request_sync_with_timeout` call
whose worker never replies (lsp.rs 477-526): `fetch_add` the id, insert the
sender, write the frame, wait out the timeout, then `cancel_request`
(lsp.rs 556-573) removes the entry before the call returns its timeout
error.  Returns the id used and the state left behind. -/
def sendRequestTimeoutPath {σ : Type} (tx : σ) (st : CorrState σ) : Int × CorrState σ :=
  (st.nextId,
    { pending := (removeKey st.nextId (insertKey st.nextId tx st.pending)).2,
      nextId := wrapI32 (st.nextId + 1) })

/-- `N` consecutive LSP requests that all time out. -/
def timeoutRequests {σ : Type} : List σ → CorrState σ → CorrState σ
  | [], st => st
  | tx :: txs, st => timeoutRequests txs (sendRequestTimeoutPath tx st).2

/-- The effect of `run_inference` on the pending map when the worker never
responds (commands.rs 972-1015): insert the caller-supplied `request_id`,
write the command, hit the receive timeout, and remove the entry. -/
def run_inference_timeout_effect {τ : Type} (rid : List Char) (tx : τ)
    (pending : List (List Char × τ)) : List (List Char × τ) :=
  (removeKey rid (insertKey rid tx pending)).2

/-- `N` consecutive inference requests that all time out. -/
def timeoutInferences {τ : Type} :
    List (List Char × τ) → List (List Char × τ) → List (List Char × τ)
  | [], pending => pending
  | (rid, tx) :: rest, pending =>
    timeoutInferences rest (run_inference_timeout_effect rid tx pending)

theorem insertKey_fresh {κ σ : Type} [DecidableEq κ] {m : List (κ × σ)} {k : κ} (v : σ)
    (h : k ∉ keysOf m) : insertKey k v m = m ++ [(k, v)] := by
  induction m with
  | nil => rfl
  | cons hd rest ih =>
    obtain ⟨k0, v0⟩ := hd
    simp only [keysOf, List.map_cons, List.mem_cons, not_or] at h
    simp only [insertKey]
    rw [if_neg (fun e => h.1 e.symm), List.cons_append, ih h.2]

theorem removeKey_append_fresh {κ σ : Type} [DecidableEq κ] {m : List (κ × σ)} {k : κ} (v : σ)
    (h : k ∉ keysOf m) : removeKey k (m ++ [(k, v)]) = (some v, m) := by
  induction m with
  | nil => simp [removeKey]
  | cons hd rest ih =>
    obtain ⟨k0, v0⟩ := hd
    simp only [keysOf, List.map_cons, List.mem_cons, not_or] at h
    simp only [List.cons_append, removeKey, List.append_eq]
    rw [if_neg (fun e => h.1 e.symm), ih h.2]

theorem insert_remove_fresh {κ σ : Type} [DecidableEq κ] {m : List (κ × σ)} {k : κ} (v : σ)
    (h : k ∉ keysOf m) : (removeKey k (insertKey k v m)).2 = m := by
  rw [insertKey_fresh v h, removeKey_append_fresh v h]

theorem wrapI32_eq_self {n : Int} (h1 : -(2 ^ 31) ≤ n) (h2 : n < 2 ^ 31) : wrapI32 n = n := by
  unfold wrapI32
  omega

theorem lsp_timeout_requests_pending {σ : Type} (txs : List σ) : ∀ (st : CorrState σ),
    (∀ k ∈ keysOf st.pending, k < st.nextId) → 0 ≤ st.nextId →
    st.nextId + txs.length ≤ 2 ^ 31 →
    (timeoutRequests txs st).pending = st.pending := by
  induction txs with
  | nil => intro st _ _ _; rfl
  | cons tx txs ih =>
    intro st hkeys hnn hbound
    have hfresh : st.nextId ∉ keysOf st.pending :=
      fun hmem => absurd (hkeys _ hmem) (by omega)
    have hstep : (sendRequestTimeoutPath tx st).2.pending = st.pending :=
      insert_remove_fresh tx hfresh
    have hlen : (tx :: txs).length = txs.length + 1 := rfl
    rw [hlen] at hbound
    show (timeoutRequests txs (sendRequestTimeoutPath tx st).2).pending = st.pending
    cases txs with
    | nil => exact hstep
    | cons tx2 txs2 =>
      have hlen2 : (tx2 :: txs2).length = txs2.length + 1 := rfl
      rw [hlen2] at hbound
      have hw : wrapI32 (st.nextId + 1) = st.nextId + 1 :=
        wrapI32_eq_self (by omega) (by push_cast at hbound ⊢; omega)
      have hnext : (sendRequestTimeoutPath tx st).2.nextId = st.nextId + 1 := hw
      rw [ih (sendRequestTimeoutPath tx st).2
        (by rw [hstep, hnext]; exact fun k hk => by have := hkeys k hk; omega)
        (by rw [hnext]; omega)
        (by rw [hnext, hlen2]; push_cast at hbound ⊢; omega)]
      exact hstep

theorem inference_timeout_requests_pending {τ : Type} (reqs : List (List Char × τ)) :
    ∀ (pending : List (List Char × τ)),
    (∀ r ∈ reqs, r.1 ∉ keysOf pending) →
    timeoutInferences reqs pending = pending := by
  induction reqs with
  | nil => intro pending _; rfl
  | cons r rest ih =>
    intro pending hfresh
    obtain ⟨rid, tx⟩ := r
    have hstep : run_inference_timeout_effect rid tx pending = pending :=
      insert_remove_fresh tx (hfresh (rid, tx) (List.mem_cons_self _ _))
    show timeoutInferences rest (run_inference_timeout_effect rid tx pending) = pending
    rw [hstep]
    exact ih pending fun r' hr' => hfresh r' (List.mem_cons_of_mem _ hr')

/-- Claim C4: a request whose worker never replies returns a timeout error at
its deadline and its pending-map entry is removed: after `N` consecutive
timeouts the pending map is back at its baseline (LSP side: ids allocated by
the `i32` counter above every baseline key; inference side: fresh
caller-supplied string ids). -/
theorem timeout_restores_pending_map :
    (∀ (σ : Type) (txs : List σ) (st : CorrState σ),
        (∀ k ∈ keysOf st.pending, k < st.nextId) →
        0 ≤ st.nextId →
        st.nextId + txs.length ≤ 2 ^ 31 →
        (timeoutRequests txs st).pending = st.pending) ∧
    (∀ (τ : Type) (reqs : List (List Char × τ)) (pending : List (List Char × τ)),
        (∀ r ∈ reqs, r.1 ∉ keysOf pending) →
        timeoutInferences reqs pending = pending) :=
  ⟨fun σ txs st => lsp_timeout_requests_pending txs st,
   fun τ reqs pending => inference_timeout_requests_pending reqs pending⟩

/-! ### Registration precedes the stdin write; removal is at most once (C7) -/

/-- Ordered effects of a request path, over identifier type `κ`. -/
inductive ReqAction (κ : Type) where
  | lockState
  | allocId (id : κ)
  | registerPending (id : κ)
  | writeFrame (id : κ)
  | flushStdin
  | unlockState
  | awaitReply (id : κ)

/-- The effect trace of `send_request_sync_with_timeout` up to the wait
(lsp.rs 477-507), in source order: take the state lock, `fetch_add` the id,
insert the sender into the pending map, write the encoded frame, flush,
release the lock, block on the reply channel. -/
def send_request_trace (id : Int) : List (ReqAction Int) :=
  [.lockState, .allocId id, .registerPending id, .writeFrame id, .flushStdin,
    .unlockState, .awaitReply id]

/-- The effect trace of `run_inference` up to the wait (commands.rs 972-997);
the `request_id` is caller-supplied, so there is no allocation step. -/
def run_inference_trace (rid : List Char) : List (ReqAction (List Char)) :=
  [.lockState, .registerPending rid, .writeFrame rid, .flushStdin,
    .unlockState, .awaitReply rid]

theorem removeKey_fst_none_of_not_mem {κ σ : Type} [DecidableEq κ] {m : List (κ × σ)} {k : κ}
    (h : k ∉ keysOf m) : (removeKey k m).1 = none := by
  induction m with
  | nil => rfl
  | cons hd rest ih =>
    obtain ⟨k0, v0⟩ := hd
    simp only [keysOf, List.map_cons, List.mem_cons, not_or] at h
    simp only [removeKey]
    rw [if_neg (fun e => h.1 e.symm)]
    exact ih h.2

theorem not_mem_keys_removeKey {κ σ : Type} [DecidableEq κ] {m : List (κ × σ)} {k : κ}
    (hnd : (keysOf m).Nodup) : k ∉ keysOf (removeKey k m).2 := by
  induction m with
  | nil => simp [removeKey, keysOf]
  | cons hd rest ih =>
    obtain ⟨k0, v0⟩ := hd
    simp only [keysOf, List.map_cons, List.nodup_cons] at hnd
    simp only [removeKey]
    by_cases hk : k0 = k
    · rw [if_pos hk]
      subst hk
      exact fun hmem => hnd.1 hmem
    · rw [if_neg hk]
      simp only [keysOf, List.map_cons, List.mem_cons, not_or]
      exact ⟨fun e => hk e.symm, ih hnd.2⟩

/-- Claim C7: in both request paths the pending-map registration happens
strictly before the frame is written to the child's stdin, and a pending
entry is removed at most once: after one successful `HashMap::remove` of an
id, a second concurrent removal attempt (timeout-cancel vs. reply dispatch,
in either order) finds nothing and so delivers nothing. -/
theorem register_before_write_single_removal :
    (∀ id : Int, ∃ a b c, send_request_trace id
        = a ++ ReqAction.registerPending id :: b ++ ReqAction.writeFrame id :: c) ∧
    (∀ rid : List Char, ∃ a b c, run_inference_trace rid
        = a ++ ReqAction.registerPending rid :: b ++ ReqAction.writeFrame rid :: c) ∧
    (∀ (κ σ : Type) [DecidableEq κ] (m : List (κ × σ)) (k : κ),
        (keysOf m).Nodup → (removeKey k (removeKey k m).2).1 = none) := by
  refine ⟨?_, ?_, ?_⟩
  · intro id
    exact ⟨[.lockState, .allocId id], [],
      [.flushStdin, .unlockState, .awaitReply id], rfl⟩
  · intro rid
    exact ⟨[.lockState], [], [.flushStdin, .unlockState, .awaitReply rid], rfl⟩
  · intro κ σ _ m k hnd
    exact removeKey_fst_none_of_not_mem (not_mem_keys_removeKey hnd)

/-! ### Reader-thread EOF behaviour (C3) -/

/-- The LSP-side state observed by the reader thread and the waiters: the
pending map and whether the process handle (which owns the map) is still
stored in the global slot. -/
structure LspReaderState (σ : Type) where
  pending : List (Int × σ)
  processStored : Bool

/-- The `Err` branch of the stdout reader loop (lsp.rs 217-221): on EOF or a
fatal decode error the thread logs the error and breaks out of the loop.  It
does not call `reject_pending_requests`, does not clear the pending map, and
does not clear the stored process. -/
def readerOnDecodeError {σ : Type} (st : LspReaderState σ) : LspReaderState σ := st

/-- `reject_pending_requests` (lsp.rs 457-468): with a process stored, drain
every pending entry and send each waiter the error.  It is called only from
the monitor's unreachable restart branch, never from the reader's EOF path. -/
def reject_pending_requests {σ : Type} (reason : List Char) (st : LspReaderState σ) :
    LspReaderState σ × List (σ × Except (List Char) Json) :=
  if st.processStored then
    ({ st with pending := [] }, st.pending.map fun e => (e.2, .error reason))
  else (st, [])

/-- How the blocked `rx.recv_timeout` of a waiter resolves (lsp.rs 510-525). -/
inductive WaitResult where
  | reply
  | timeoutErr
  | disconnectedErr
deriving DecidableEq

/-- Resolution of the waiter registered under `k` once the reader thread has
exited: no message will ever be sent, so while its sender is kept alive
inside the stored pending map the waiter can only run into
`RecvTimeoutError::Timeout` at its own deadline; `Disconnected` requires the
map (and with it the sender) to have been dropped along with the process
handle. -/
def waitResultAfterReaderExit {σ : Type} (st : LspReaderState σ) (k : Int) : WaitResult :=
  if st.processStored ∧ k ∈ keysOf st.pending then .timeoutErr else .disconnectedErr

/-- Claim C3 counterexample: with one outstanding request, after the child's
stdout closes (reader takes its decode-error/EOF exit), the waiter does NOT
resolve with a Disconnected error — refuting the claim as stated. -/
theorem reader_eof_counterexample :
    waitResultAfterReaderExit
        (readerOnDecodeError (LspReaderState.mk [((1 : Int), (0 : Nat))] true)) 1
      ≠ WaitResult.disconnectedErr := by decide

/-- Claim C3 (amended): when the child's stdout closes while K requests are
outstanding, the reader's EOF path leaves the pending map untouched (it never
calls `reject_pending_requests`), and each outstanding request then resolves
with its own Timeout error when its deadline elapses — bounded time, none
hangs — rather than a prompt Disconnected error. -/
theorem reader_eof_pending_timeout :
    ∀ (σ : Type) (st : LspReaderState σ) (k : Int) (s : σ),
      st.processStored = true → (k, s) ∈ st.pending →
      (readerOnDecodeError st).pending = st.pending ∧
      waitResultAfterReaderExit (readerOnDecodeError st) k = WaitResult.timeoutErr := by
  intro σ st k s hstored hmem
  refine ⟨rfl, ?_⟩
  unfold readerOnDecodeError waitResultAfterReaderExit
  rw [if_pos]
  exact ⟨by rw [hstored], List.mem_map.mpr ⟨(k, s), hmem, rfl⟩⟩

/-- Claim C3 witness instance. -/
theorem reader_eof_pending_timeout_witness :
    (LspReaderState.mk [((1 : Int), (0 : Nat))] true).processStored = true ∧
    ((1 : Int), (0 : Nat)) ∈ (LspReaderState.mk [((1 : Int), (0 : Nat))] true).pending ∧
    waitResultAfterReaderExit
        (readerOnDecodeError (LspReaderState.mk [((1 : Int), (0 : Nat))] true)) 1
      = WaitResult.timeoutErr :=
  ⟨rfl, by decide,
    (reader_eof_pending_timeout Nat (LspReaderState.mk [((1 : Int), (0 : Nat))] true) 1 0
      rfl (by decide)).2⟩

/-! ### The restart monitor (C5) -/

/-- `MAX_RESTARTS` (lsp.rs 22). -/
def MAX_RESTARTS : Int := 3

/-- `RESTART_BACKOFF_MS` (lsp.rs 23). -/
def RESTART_BACKOFF_MS : List Nat := [1000, 3000, 10000]

/-- Observable events of one monitor iteration. -/
inductive MonitorEvent where
  | backoffDelay (ms : Nat)
  | rejectPending
  | restartAttempt
  | gaveUp
deriving DecidableEq

/-- State seen by `monitor_process`: whether the global slot holds a process,
the true liveness of the child (which the source never consults), the
`RESTART_COUNT`, and whether the loop has exited. -/
structure MonitorState where
  slotOccupied : Bool
  childAlive : Bool
  restartCount : Int
  stopped : Bool

/-- One iteration of the loop in `monitor_process` (lsp.rs 336-395).  The
source computes `needs_restart` without consulting the child: with a stored
process the branch is the literal `false` (lsp.rs 345-349, "Process
monitoring done via reader thread"), and with an empty slot it is `false`
too.  The restart branch (lsp.rs 355-393) is translated below but is
unreachable. -/
def monitorIteration (st : MonitorState) : MonitorState × List MonitorEvent :=
  if st.stopped then (st, [])
  else
    let needs_restart := if st.slotOccupied then false else false
    if needs_restart then
      let rc := st.restartCount
      if rc < MAX_RESTARTS then
        ({ st with restartCount := rc + 1, slotOccupied := false },
          [.backoffDelay (RESTART_BACKOFF_MS.getD rc.toNat 0), .rejectPending,
            .restartAttempt])
      else
        ({ st with restartCount := rc + 1, stopped := true }, [.gaveUp])
    else (st, [])

/-- Iterate the monitor loop `n` times, collecting emitted events. -/
def monitorRun : Nat → MonitorState → MonitorState × List MonitorEvent
  | 0, st => (st, [])
  | n + 1, st =>
    ((monitorRun n (monitorIteration st).1).1,
      (monitorIteration st).2 ++ (monitorRun n (monitorIteration st).1).2)

/-- Claim C5 is refuted by the code: in any number of monitor iterations,
from any state — in particular with a crashed child (`childAlive = false`)
and a stored handle — the monitor emits no backoff delay, no restart attempt
and no terminal give-up event, and leaves its state unchanged; the claimed
three backoff restarts followed by `GivenUp` never happen because
`needs_restart` is the constant `false`. -/
theorem monitor_never_restarts :
    ∀ (n : Nat) (st : MonitorState), monitorRun n st = (st, []) := by
  intro n
  induction n with
  | zero => intro st; rfl
  | succ n ih =>
    intro st
    have hiter : monitorIteration st = (st, []) := by
      unfold monitorIteration
      by_cases hs : st.stopped
      · rw [if_pos hs]
      · rw [if_neg hs]
        simp [ite_self]
    show ((monitorRun n (monitorIteration st).1).1,
      (monitorIteration st).2 ++ (monitorRun n (monitorIteration st).1).2) = (st, [])
    rw [hiter]
    simp [ih st]

/-! ### Stop commands (C6) -/

/-- Externally visible effects of a stop command. -/
inductive StopEffect where
  | takeSlot
  | signalReaderShutdown
  | sendShutdownRequest
  | sendExitNotification
  | closeStdin
  | sigtermChild
  | reapChild
  | removePidMarker
deriving DecidableEq

/-- Result of `std::sync::Mutex::lock`: acquiring a lock the current thread
already holds is documented not to return (it deadlocks or panics). -/
inductive LockAcquire where
  | acquired
  | noReturn
deriving DecidableEq

/-- Locking the `LSP_PROCESS` mutex as a function of whether the current
thread already holds it. -/
def lockLspMutex (heldByCurrentThread : Bool) : LockAcquire :=
  if heldByCurrentThread then .noReturn else .acquired

/-- Outcome of a stop call: a normal return carrying the result, the final
slot contents and the effects performed, or a call that never returns,
carrying the effects performed before it blocked. -/
inductive StopOutcome (α : Type) where
  | returns (result : Except (List Char) Unit) (slot : Option α) (effects : List StopEffect)
  | blocked (effects : List StopEffect)

/-- `stop_lsp` (lsp.rs 575-616): it locks `LSP_PROCESS` (line 577) and holds
the guard for the whole body.  With an empty slot it skips the `if let` and
returns `Ok(())` — not a not-running error.  With a stored process it takes
the slot and signals the reader shutdown channel, then calls
`send_request_sync("shutdown", ...)` (line 586), whose first action relocks
the same mutex on the same thread (line 478): `lockLspMutex true` does not
return, so the exit notification, the reap loop and the final `Ok` are
unreachable (the would-be continuation is kept in the dead `acquired` arm).
The LSP keeps no PID marker. -/
def stop_lsp_model {α : Type} (st : Option α) : StopOutcome α :=
  match st with
  | some _ =>
    match lockLspMutex true with
    | .noReturn => .blocked [.takeSlot, .signalReaderShutdown]
    | .acquired =>
      .returns (.ok ()) none
        [.takeSlot, .signalReaderShutdown, .sendShutdownRequest,
          .sendExitNotification, .reapChild]
  | none => .returns (.ok ()) none []

/-- `stop_inference_server` (commands.rs 915-933): "No inference server
running" when the slot is empty; otherwise close stdin (EOF is the exit
signal), wait for the child, and remove the PID marker. -/
def stop_inference_server_model {α : Type} (st : Option α) :
    Except (List Char) Unit × Option α × List StopEffect :=
  match st with
  | some _ => (.ok (), none, [.closeStdin, .reapChild, .removePidMarker])
  | none => (.error ("No inference server running".data), none, [])

/-- `stop_http_server` (commands.rs 1589-1613): "No HTTP server running" when
the slot is empty; otherwise SIGTERM the child, wait for it, and remove the
PID marker. -/
def stop_http_server_model {α : Type} (st : Option α) :
    Except (List Char) Unit × Option α × List StopEffect :=
  match st with
  | some _ => (.ok (), none, [.sigtermChild, .reapChild, .removePidMarker])
  | none => (.error ("No HTTP server running".data), none, [])

/-- Claim C6 counterexample: calling `stop_lsp` with no LSP running returns
`Ok(())` and no error — refuting the claim's "for every worker kind,
calling stop when no worker of that kind is running returns a NotRunning
error". -/
theorem stop_lsp_not_running_counterexample :
    stop_lsp_model (none : Option Unit) = StopOutcome.returns (Except.ok ()) none [] ∧
    ∀ e slot effects,
      stop_lsp_model (none : Option Unit)
        ≠ StopOutcome.returns (Except.error e) slot effects := by
  refine ⟨rfl, ?_⟩
  intro e slot effects h
  rw [show stop_lsp_model (none : Option Unit)
      = StopOutcome.returns (Except.ok ()) none [] from rfl] at h
  injection h with h1 h2 h3
  exact Except.noConfusion h1

/-- Claim C6 (amended): with no running worker, `stop_inference_server` and
`stop_http_server` return their not-running errors, while `stop_lsp` returns
`Ok(())`.  With a running worker, the inference and HTTP stops succeed,
empty the slot, reap the child, and remove their PID marker; `stop_lsp`,
however, holds the `LSP_PROCESS` mutex across its internal
`send_request_sync("shutdown")` call, which relocks the same mutex on the
same thread and therefore never returns: a stop of a running LSP blocks
after taking the slot and signalling the reader, before the exit
notification and the reap. -/
theorem stop_commands_behaviour :
    ∀ (α : Type) (h : α),
      stop_inference_server_model (none : Option α)
        = (.error ("No inference server running".data), none, []) ∧
      stop_http_server_model (none : Option α)
        = (.error ("No HTTP server running".data), none, []) ∧
      stop_lsp_model (none : Option α) = StopOutcome.returns (.ok ()) none [] ∧
      stop_lsp_model (some h)
        = StopOutcome.blocked [.takeSlot, .signalReaderShutdown] ∧
      (∀ r slot effects,
        stop_lsp_model (some h) ≠ StopOutcome.returns r slot effects) ∧
      (stop_inference_server_model (some h)).1 = .ok () ∧
      (stop_inference_server_model (some h)).2.1 = none ∧
      StopEffect.reapChild ∈ (stop_inference_server_model (some h)).2.2 ∧
      StopEffect.removePidMarker ∈ (stop_inference_server_model (some h)).2.2 ∧
      (stop_http_server_model (some h)).1 = .ok () ∧
      (stop_http_server_model (some h)).2.1 = none ∧
      StopEffect.reapChild ∈ (stop_http_server_model (some h)).2.2 ∧
      StopEffect.removePidMarker ∈ (stop_http_server_model (some h)).2.2 := by
  intro α h
  refine ⟨rfl, rfl, rfl, rfl, ?_, rfl, rfl, ?_, ?_, rfl, rfl, ?_, ?_⟩
  · intro r slot effects hc
    rw [show stop_lsp_model (some h)
        = StopOutcome.blocked [.takeSlot, .signalReaderShutdown] from rfl] at hc
    exact StopOutcome.noConfusion hc
  all_goals
    simp [stop_inference_server_model, stop_http_server_model]

/-! ### Script output parsing (C9) -/

/-- An opaque `f64` bit pattern; no floating-point arithmetic is modelled
(no claim computes with these values). -/
structure F64 where
  bits : Nat
deriving DecidableEq

/-- `JsonOutput` (commands.rs 147-172): the optional fields `serde` extracts
from a structured output line. -/
structure JsonOutput where
  event_type : List Char
  message : Option (List Char)
  current : Option Nat
  total : Option Nat
  model_type : Option (List Char)
  node_id : Option (List Char)
  data : Option Json
  trial_number : Option Nat
  params : Option Json
  score : Option F64
  duration_ms : Option Nat
  best_params : Option Json
  best_score : Option F64
  total_trials : Option Nat

/-- `ScriptEvent` (commands.rs 86-145). -/
inductive ScriptEvent where
  | log (message : List Char)
  | progress (current : Nat) (total : Nat)
  | error (message : List Char)
  | metrics (model_type : List Char) (data : Json)
  | dataProfile (node_id : List Char) (data : Json)
  | complete
  | exit (code : Int)
  | trial (trial_number : Nat) (params : Json) (score : F64) (duration_ms : Option Nat)
  | tuningComplete (best_params : Json) (best_score : F64) (total_trials : Nat)
      (duration_ms : Option Nat)
  | explainProgress (data : Json)
  | featureImportance (data : Json)
  | shapData (data : Json)
  | partialDependence (data : Json)
  | explainMetadata (data : Json)
  | explainComplete (duration_ms : Nat)

/-- The structured-event cases of `parse_output_line` (commands.rs 370-456):
each recognized `"type"` whose required fields are present `return`s its
event; a missing field or unrecognized type falls through (`none`). -/
def structuredEvent (j : JsonOutput) : Option ScriptEvent :=
  if j.event_type = "log".data then j.message.map .log
  else if j.event_type = "progress".data then
    match j.current, j.total with
    | some c, some t => some (.progress c t)
    | _, _ => none
  else if j.event_type = "error".data then j.message.map .error
  else if j.event_type = "complete".data then some .complete
  else if j.event_type = "metrics".data then
    match j.model_type, j.data with
    | some mt, some d => some (.metrics mt d)
    | _, _ => none
  else if j.event_type = "dataProfile".data then
    match j.node_id, j.data with
    | some nid, some d => some (.dataProfile nid d)
    | _, _ => none
  else if j.event_type = "trial".data then
    match j.trial_number, j.params, j.score with
    | some tn, some ps, some sc => some (.trial tn ps sc j.duration_ms)
    | _, _, _ => none
  else if j.event_type = "tuningComplete".data then
    match j.best_params, j.best_score, j.total_trials with
    | some bp, some bs, some tt => some (.tuningComplete bp bs tt j.duration_ms)
    | _, _, _ => none
  else if j.event_type = "explainProgress".data then j.data.map .explainProgress
  else if j.event_type = "featureImportance".data then j.data.map .featureImportance
  else if j.event_type = "shapData".data then j.data.map .shapData
  else if j.event_type = "partialDependence".data then j.data.map .partialDependence
  else if j.event_type = "explainMetadata".data then j.data.map .explainMetadata
  else if j.event_type = "explainComplete".data then j.duration_ms.map .explainComplete
  else none

/-- `parse_output_line` (commands.rs 368-463).  `parsed` stands for the
result of the external `serde_json::from_str::<JsonOutput>(line)` call:
`none` when the line is not valid JSON of the expected shape.  Every line
yields an event; the fallback wraps the raw line as a log event. -/
def parse_output_line (line : List Char) (parsed : Option JsonOutput) : ScriptEvent :=
  match parsed with
  | some j =>
    match structuredEvent j with
    | some e => e
    | none => .log line
  | none => .log line

/-- Claim C9: every stdout line is first attempted as a structured JSON event
(a successfully parsed structured event is returned as-is); every line that
does not parse as JSON — and even a JSON line matching no complete structured
case — is returned as a log event carrying the raw line text, so no line is
ever dropped. -/
theorem unparseable_line_becomes_log :
    (∀ (line : List Char) (j : JsonOutput) (e : ScriptEvent),
        structuredEvent j = some e → parse_output_line line (some j) = e) ∧
    (∀ line : List Char, parse_output_line line none = ScriptEvent.log line) ∧
    (∀ (line : List Char) (j : JsonOutput),
        structuredEvent j = none → parse_output_line line (some j) = ScriptEvent.log line) := by
  refine ⟨?_, fun line => rfl, ?_⟩
  · intro line j e h
    unfold parse_output_line
    dsimp only
    rw [h]
  · intro line j h
    unfold parse_output_line
    dsimp only
    rw [h]

/-- Claim C9 witness instance. -/
theorem unparseable_line_becomes_log_witness :
    structuredEvent
        (JsonOutput.mk ("complete".data) none none none none none none none none
          none none none none none) = some ScriptEvent.complete ∧
    parse_output_line ("raw line".data)
        (some (JsonOutput.mk ("complete".data) none none none none none none none
          none none none none none none)) = ScriptEvent.complete :=
  ⟨rfl,
    unparseable_line_becomes_log.1 ("raw line".data)
      (JsonOutput.mk ("complete".data) none none none none none none none none
        none none none none none) ScriptEvent.complete rfl⟩

/-! ### HTTP-server metrics tracker (C10) -/

/-- `u64` wrap-around modulus. -/
def W64 : Nat := 2 ^ 64

/-- `HttpRequestLog` (commands.rs): one logged HTTP request. -/
structure HttpRequestLog where
  id : List Char
  timestamp : Int
  method : List Char
  path : List Char
  status_code : Nat
  latency_ms : F64
  batch_size : Nat

/-- `HttpServerMetricsTracker` (commands.rs 1245-1253).  The `u64` counters
are Nats kept below `2^64` with explicit wrap-around on increment.
`total_latency_ms` is an `f64` accumulator; since no claim computes with it,
it is carried as the list of accumulated latencies rather than a modelled
float sum. -/
structure HttpServerMetricsTracker where
  total_requests : Nat
  successful_requests : Nat
  failed_requests : Nat
  total_latency_ms : List F64
  start_time_set : Bool
  recent_requests : List HttpRequestLog

/-- `HttpServerMetricsTracker::new` (commands.rs 1256-1261). -/
def HttpServerMetricsTracker.new : HttpServerMetricsTracker :=
  { total_requests := 0, successful_requests := 0, failed_requests := 0,
    total_latency_ms := [], start_time_set := true, recent_requests := [] }

/-- The `while len > 100 pop_front` loop of `add_request`
(commands.rs 1273-1276); the front of the list is the front of the
`VecDeque`. -/
def trimRecent (l : List HttpRequestLog) : List HttpRequestLog :=
  if h : 100 < l.length then trimRecent l.tail else l
termination_by l.length
decreasing_by
  rw [List.length_tail]
  omega

/-- `add_request` (commands.rs 1263-1277): increment `total_requests`; a
request is successful exactly when `200 <= status_code < 400`, failed
otherwise; accumulate the latency; push the log back and trim the deque to
the last 100 entries. -/
def HttpServerMetricsTracker.add_request (m : HttpServerMetricsTracker)
    (log : HttpRequestLog) : HttpServerMetricsTracker :=
  { total_requests := (m.total_requests + 1) % W64,
    successful_requests :=
      if 200 ≤ log.status_code ∧ log.status_code < 400
      then (m.successful_requests + 1) % W64 else m.successful_requests,
    failed_requests :=
      if 200 ≤ log.status_code ∧ log.status_code < 400
      then m.failed_requests else (m.failed_requests + 1) % W64,
    total_latency_ms := m.total_latency_ms ++ [log.latency_ms],
    start_time_set := m.start_time_set,
    recent_requests := trimRecent (m.recent_requests ++ [log]) }

/-- `reset` (commands.rs 1307-1309): `*self = Self::new()`. -/
def HttpServerMetricsTracker.reset (_ : HttpServerMetricsTracker) :
    HttpServerMetricsTracker :=
  HttpServerMetricsTracker.new

/-- A call against the tracker: `add_request` or `reset`. -/
inductive MetricsOp where
  | add (log : HttpRequestLog)
  | reset

/-- Apply a sequence of tracker calls to a state. -/
def applyMetricsOps (ops : List MetricsOp) (m : HttpServerMetricsTracker) :
    HttpServerMetricsTracker :=
  ops.foldl (fun m op =>
    match op with
    | .add log => m.add_request log
    | .reset => m.reset) m

theorem trimRecent_length_aux :
    ∀ (n : Nat) (l : List HttpRequestLog), l.length ≤ n → (trimRecent l).length ≤ 100 := by
  intro n
  induction n with
  | zero =>
    intro l hl
    rw [trimRecent]
    rw [dif_neg (by omega)]
    omega
  | succ n ih =>
    intro l hl
    rw [trimRecent]
    by_cases h : 100 < l.length
    · rw [dif_pos h]
      exact ih l.tail (by rw [List.length_tail]; omega)
    · rw [dif_neg h]
      omega

theorem trimRecent_length (l : List HttpRequestLog) : (trimRecent l).length ≤ 100 :=
  trimRecent_length_aux l.length l (le_refl _)

/-- The inductive invariant of the tracker. -/
def MetricsInv (m : HttpServerMetricsTracker) : Prop :=
  m.total_requests = (m.successful_requests + m.failed_requests) % W64 ∧
  m.successful_requests < W64 ∧ m.failed_requests < W64 ∧
  m.recent_requests.length ≤ 100

theorem metricsInv_new : MetricsInv HttpServerMetricsTracker.new := by
  refine ⟨rfl, ?_, ?_, ?_⟩ <;> simp [HttpServerMetricsTracker.new, W64]

theorem metricsInv_add (m : HttpServerMetricsTracker) (log : HttpRequestLog)
    (h : MetricsInv m) : MetricsInv (m.add_request log) := by
  obtain ⟨h1, h2, h3, _⟩ := h
  unfold MetricsInv HttpServerMetricsTracker.add_request
  dsimp only
  refine ⟨?_, ?_, ?_, trimRecent_length _⟩
  · by_cases hst : 200 ≤ log.status_code ∧ log.status_code < 400
    · rw [if_pos hst, if_pos hst]
      simp only [W64] at h1 h2 h3 ⊢
      omega
    · rw [if_neg hst, if_neg hst]
      simp only [W64] at h1 h2 h3 ⊢
      omega
  · by_cases hst : 200 ≤ log.status_code ∧ log.status_code < 400
    · rw [if_pos hst]
      simp only [W64] at h2 ⊢
      omega
    · rw [if_neg hst]
      exact h2
  · by_cases hst : 200 ≤ log.status_code ∧ log.status_code < 400
    · rw [if_pos hst]
      exact h3
    · rw [if_neg hst]
      simp only [W64] at h3 ⊢
      omega

theorem metricsInv_apply (ops : List MetricsOp) :
    ∀ (m : HttpServerMetricsTracker), MetricsInv m → MetricsInv (applyMetricsOps ops m) := by
  induction ops with
  | nil => intro m h; exact h
  | cons op ops ih =>
    intro m h
    cases op with
    | add log => exact ih _ (metricsInv_add m log h)
    | reset => exact ih _ metricsInv_new

/-- Claim C10: every tracker state reachable from `new()` by any sequence of
`add_request` and `reset` calls satisfies
`total_requests = (successful_requests + failed_requests) % 2^64` (the u64
sum) and holds at most 100 recent requests; and `add_request` counts a
request as successful exactly when `200 ≤ status_code < 400`, as failed
otherwise. -/
theorem metrics_tracker_invariant :
    (∀ ops : List MetricsOp,
        (applyMetricsOps ops HttpServerMetricsTracker.new).total_requests
          = ((applyMetricsOps ops HttpServerMetricsTracker.new).successful_requests
              + (applyMetricsOps ops HttpServerMetricsTracker.new).failed_requests) % W64 ∧
        (applyMetricsOps ops HttpServerMetricsTracker.new).recent_requests.length ≤ 100) ∧
    (∀ (m : HttpServerMetricsTracker) (log : HttpRequestLog),
        (m.add_request log).successful_requests
          = (if 200 ≤ log.status_code ∧ log.status_code < 400
             then (m.successful_requests + 1) % W64 else m.successful_requests) ∧
        (m.add_request log).failed_requests
          = (if 200 ≤ log.status_code ∧ log.status_code < 400
             then m.failed_requests else (m.failed_requests + 1) % W64)) := by
  constructor
  · intro ops
    have h := metricsInv_apply ops HttpServerMetricsTracker.new metricsInv_new
    exact ⟨h.1, h.2.2.2⟩
  · intro m log
    exact ⟨rfl, rfl⟩

/-! ### Witness instances -/

/-- Claim C1 witness instance: with callers 10 and 20 registered under ids 1
and 2, replies arriving out of order (an unknown id 9 first, then id 2), the
caller registered under id 2 receives exactly its own reply. -/
theorem correlation_dispatch_by_id_witness :
    lspReplyKey (LspMsg.mk none (some (Json.num 2)) none (some (Json.str ['y']))) = some 2 ∧
    (∀ m' ∈ [LspMsg.mk none (some (Json.num 9)) none (some Json.null)],
        lspReplyKey m' ≠ some 2) ∧
    ((2 : Int), (20 : Nat)) ∈ [((1 : Int), (10 : Nat)), (2, 20)] ∧
    (keysOf [((1 : Int), (10 : Nat)), (2, 20)]).Nodup ∧
    (LspMsg.mk none (some (Json.num 2)) none (some (Json.str ['y'])), (20 : Nat),
        replyPayload (LspMsg.mk none (some (Json.num 2)) none (some (Json.str ['y']))))
      ∈ (processMessages
          ([LspMsg.mk none (some (Json.num 9)) none (some Json.null)]
            ++ LspMsg.mk none (some (Json.num 2)) none (some (Json.str ['y']))
              :: [LspMsg.mk none (some (Json.num 1)) none (some Json.null)])
          [((1 : Int), (10 : Nat)), (2, 20)]).2 :=
  ⟨by decide, by decide, by decide, by decide,
    correlation_dispatch_by_id.2.1 Nat [((1 : Int), (10 : Nat)), (2, 20)]
      [LspMsg.mk none (some (Json.num 9)) none (some Json.null)]
      (LspMsg.mk none (some (Json.num 2)) none (some (Json.str ['y'])))
      [LspMsg.mk none (some (Json.num 1)) none (some Json.null)]
      2 20 (by decide) (by decide) (by decide) (by decide)⟩

/-- Claim C4 witness instance. -/
theorem timeout_restores_pending_map_witness :
    (∀ k ∈ keysOf [((1 : Int), (42 : Nat))], k < 5) ∧
    ((0 : Int) ≤ 5) ∧
    ((5 : Int) + (([7, 8] : List Nat).length : Int) ≤ 2 ^ 31) ∧
    (timeoutRequests [7, 8] (CorrState.mk [((1 : Int), (42 : Nat))] 5)).pending
      = [((1 : Int), (42 : Nat))] ∧
    (∀ r ∈ [(('a' :: []), (3 : Nat))], r.1 ∉ keysOf [(('b' :: []), (9 : Nat))]) ∧
    timeoutInferences [(('a' :: []), (3 : Nat))] [(('b' :: []), (9 : Nat))]
      = [(('b' :: []), (9 : Nat))] :=
  ⟨by decide, by decide, by decide,
    timeout_restores_pending_map.1 Nat [7, 8] (CorrState.mk [((1 : Int), (42 : Nat))] 5)
      (by decide) (by decide) (by decide),
    by decide,
    timeout_restores_pending_map.2 Nat [(('a' :: []), (3 : Nat))] [(('b' :: []), (9 : Nat))]
      (by decide)⟩

/-- Claim C7 witness instance. -/
theorem register_before_write_single_removal_witness :
    (keysOf [((1 : Int), (5 : Nat)), (2, 6)]).Nodup ∧
    (removeKey 1 (removeKey 1 [((1 : Int), (5 : Nat)), (2, 6)]).2).1 = none :=
  ⟨by decide,
    register_before_write_single_removal.2.2 Int Nat [((1 : Int), (5 : Nat)), (2, 6)] 1
      (by decide)⟩

end Desktop
